import Mathlib

/-!
# Verification of the todo-app core (ownership-scoped CRUD + reorder engine)

Shallow embedding of the route handlers in `src/app/routes/{auth,todo_lists,todos}.py`.
The relational store is embedded as explicit lists of records (`Db`); each handler
becomes a pure function threading the store.  SQLAlchemy queries are embedded as
follows: `.filter(...).first()` becomes `List.find?`, `.filter(...).all()` becomes
`List.filter`, `.order_by(position)` becomes a stable sort by `position`,
`func.max(...)` becomes `List.max?`, and an in-place mutation of an ORM row followed
by `commit` becomes replacement of the matching record in the list.  HTML rendering
is out of scope; a handler's outcome is captured by the `Resp` type (payload, or an
error template with its HTTP status code and message).
-/

namespace TodoApp

/-- Python `datetime` values as stored by this app (`%Y-%m-%dT%H:%M` precision).
Only the components the app reads/writes are modelled. -/
structure PyDateTime where
  year : Nat
  month : Nat
  day : Nat
  hour : Nat
  minute : Nat
deriving DecidableEq, Repr, Inhabited

/-- A row of the `users` table (`app.database.User`): id, unique email, bcrypt hash. -/
structure User where
  id : String
  email : String
  password : String
deriving DecidableEq, Repr, Inhabited

/-- A row of the `todo_lists` table (`app.database.TodoList`). -/
structure TodoList where
  id : String
  user_id : String
  name : String
  description : Option String
  color : String
  position : Int
deriving DecidableEq, Repr, Inhabited

/-- A row of the `todos` table (`app.database.Todo`).  `priority` is nullable;
`completed_at` is set iff the todo was toggled complete. -/
structure Todo where
  id : String
  list_id : String
  title : String
  note : Option String
  due_date : Option PyDateTime
  priority : Option String
  is_completed : Bool
  completed_at : Option PyDateTime
  position : Int
deriving DecidableEq, Repr, Inhabited

/-- The backing store: the three tables as lists of rows (row order = table order,
used by SQLAlchemy `.first()`). -/
structure Db where
  users : List User
  lists : List TodoList
  todos : List Todo
deriving DecidableEq, Repr, Inhabited

/-- Outcome of a route handler: a rendered payload, a redirect, a bare 200, or an
error template carrying its HTTP status code and message string. -/
inductive Resp where
  | okTodo (todo : Todo)
  | okList (lst : TodoList)
  | okTodos (todos : List Todo)
  | okLists (lists : List TodoList)
  | okStatus
  | redirect (url : String)
  | err (status : Nat) (msg : String)
deriving DecidableEq, Repr, Inhabited

/-! ## Generic list-store operations (ORM mutation / deletion of the row found by a query) -/

/-- Replace the first element satisfying `p` by its image under `f` (an in-place ORM
field assignment on the row returned by `.filter(...).first()`). -/
def updateFirst (p : α → Bool) (f : α → α) : List α → List α
  | [] => []
  | x :: xs => if p x then f x :: xs else x :: updateFirst p f xs

/-- Delete the first element satisfying `p` (`db.delete(row)` on the row returned by
`.filter(...).first()`). -/
def eraseFirst (p : α → Bool) : List α → List α
  | [] => []
  | x :: xs => if p x then xs else x :: eraseFirst p xs

/-! ## String helpers (Python `str.strip`, SQL `ILIKE '%q%'`) -/

/-- `leadingMatch needle hay`: `needle` occurs at the start of `hay`. -/
def leadingMatch : List Char → List Char → Bool
  | [], _ => true
  | _ :: _, [] => false
  | a :: as, b :: bs => a == b && leadingMatch as bs

/-- `subMatch needle hay`: `needle` occurs contiguously somewhere in `hay`. -/
def subMatch (needle : List Char) : List Char → Bool
  | [] => leadingMatch needle []
  | b :: bs => leadingMatch needle (b :: bs) || subMatch needle bs

/-- Plain substring test (`"://" in url`). -/
def strContains (needle hay : String) : Bool :=
  subMatch needle.toList hay.toList

/-- Python `str.strip()`: drop leading and trailing whitespace.  (Defined on the
character list so that it evaluates by kernel reduction; same behavior as
`String.trim` on the data of this app.) -/
def pyStrip (s : String) : String :=
  ⟨((s.data.dropWhile Char.isWhitespace).reverse.dropWhile Char.isWhitespace).reverse⟩

/-- ASCII lowercasing, the case folding SQL `ILIKE` applies. -/
def pyLower (s : String) : String :=
  ⟨s.data.map Char.toLower⟩

/-- SQL `column ILIKE '%pat%'`: case-insensitive substring match. -/
def ilikeContains (pat hay : String) : Bool :=
  subMatch (pyLower pat).toList (pyLower hay).toList

/-- Python `s.strip() if s else None` (note that a whitespace-only `s` is truthy,
so it strips to the empty string rather than to `None`). -/
def pyStrOpt : Option String → Option String
  | none => none
  | some s => if s = "" then none else some (pyStrip s)

/-! ## Due-date parsing

`datetime.strptime(s, "%Y-%m-%dT%H:%M")`, modelled for the canonical zero-padded
forms the app itself emits: exactly `YYYY-MM-DDTHH:MM` with all-digit fields and
in-range month/day/hour/minute.  (CPython additionally accepts some non-padded
variants; no claim depends on the exact acceptance set, only on the
success/failure dichotomy.) -/

/-- Numeric value of a decimal digit character. -/
def digitVal (c : Char) : Nat := c.toNat - 48

/-- Parse `"%Y-%m-%dT%H:%M"`, returning `none` where `strptime` raises `ValueError`. -/
def strptimeYmdHM (s : String) : Option PyDateTime :=
  match s.toList with
  | [y1, y2, y3, y4, '-', m1, m2, '-', d1, d2, 'T', h1, h2, ':', n1, n2] =>
    if (y1.isDigit && y2.isDigit && y3.isDigit && y4.isDigit &&
        m1.isDigit && m2.isDigit && d1.isDigit && d2.isDigit &&
        h1.isDigit && h2.isDigit && n1.isDigit && n2.isDigit) then
      let y := ((digitVal y1 * 10 + digitVal y2) * 10 + digitVal y3) * 10 + digitVal y4
      let mo := digitVal m1 * 10 + digitVal m2
      let d := digitVal d1 * 10 + digitVal d2
      let h := digitVal h1 * 10 + digitVal h2
      let mi := digitVal n1 * 10 + digitVal n2
      if 1 ≤ mo && mo ≤ 12 && 1 ≤ d && d ≤ 31 && h ≤ 23 && mi ≤ 59 then
        some ⟨y, mo, d, h, mi⟩
      else none
    else none
  | _ => none

/-! ## Shared access check and orderings -/

/-- `_verify_list_access` (`todos.py`): the first list with this id owned by this user. -/
def _verify_list_access (db : Db) (list_id user_id : String) : Option TodoList :=
  db.lists.find? (fun l => l.id == list_id && l.user_id == user_id)

/-- `ORDER BY position` on todos. -/
def todoPosLe (a b : Todo) : Prop := a.position ≤ b.position

instance : DecidableRel todoPosLe := fun a b => inferInstanceAs (Decidable (a.position ≤ b.position))

instance : IsTotal Todo todoPosLe := ⟨fun a b => le_total a.position b.position⟩

instance : IsTrans Todo todoPosLe := ⟨fun _ _ _ h1 h2 => le_trans h1 h2⟩

/-- `ORDER BY position` on lists. -/
def listPosLe (a b : TodoList) : Prop := a.position ≤ b.position

instance : DecidableRel listPosLe := fun a b => inferInstanceAs (Decidable (a.position ≤ b.position))

instance : IsTotal TodoList listPosLe := ⟨fun a b => le_total a.position b.position⟩

instance : IsTrans TodoList listPosLe := ⟨fun _ _ _ h1 h2 => le_trans h1 h2⟩

/-! ## Todo routes (`src/app/routes/todos.py`) -/

/-- `GET /api/todos/search` (`search_todos`). -/
def search_todos (db : Db) (user_id list_id : String) (q : String := "")
    (priority : String := "") : Resp :=
  match _verify_list_access db list_id user_id with
  | none => .err 404 "List not found"
  | some _ =>
    let query := db.todos.filter (fun t => t.list_id == list_id)
    let query :=
      if pyStrip q ≠ "" then query.filter (fun t => ilikeContains (pyStrip q) t.title) else query
    let query :=
      if priority ≠ "" ∧ (priority = "low" ∨ priority = "medium" ∨ priority = "high") then
        query.filter (fun t => t.priority == some priority)
      else query
    .okTodos (List.insertionSort todoPosLe query)

/-- `POST /api/todos` (`create_todo`).  `new_id` stands for the id the database
generates for the inserted row.  The computed position replays Python's
`(max_pos or -1) + 1`, where both `None` and `0` are falsy. -/
def create_todo (db : Db) (user_id list_id title : String) (new_id : String) : Resp × Db :=
  match _verify_list_access db list_id user_id with
  | none => (.err 404 "List not found", db)
  | some _ =>
    if pyStrip title = "" then (.err 200 "Title is required", db)
    else if title.length > 200 then (.err 200 "Title must be 200 characters or less", db)
    else
      let max_pos := ((db.todos.filter (fun t => t.list_id == list_id)).map
        (fun t => t.position)).max?
      let falsyOr : Int := match max_pos with
        | none => -1
        | some v => if v = 0 then -1 else v
      let new_pos := falsyOr + 1
      let todo : Todo :=
        { id := new_id, list_id := list_id, title := pyStrip title, note := none,
          due_date := none, priority := some "low", is_completed := false,
          completed_at := none, position := new_pos }
      (.okTodo todo, { db with todos := db.todos ++ [todo] })

/-- `GET /api/todos/{todo_id}` (`get_todo`): access check on the *query-string*
`list_id` first (403 on failure, whether or not such a list exists), then the todo
is looked up within that list (404 when absent). -/
def get_todo (db : Db) (todo_id list_id user_id : String) : Resp :=
  match _verify_list_access db list_id user_id with
  | none => .err 403 "Not authorized"
  | some _ =>
    match db.todos.find? (fun t => t.id == todo_id && t.list_id == list_id) with
    | none => .err 404 "Todo not found"
    | some todo => .okTodo todo

/-- The due-date block of `update_todo`: `if due_date and due_date.strip():` parse,
keeping the existing value on `ValueError`; otherwise clear the field.  (Python
truthiness: `due_date` is falsy when `None` or `""`; `due_date.strip()` is falsy
when the strip result is `""`.) -/
def dueDateUpdate (old : Option PyDateTime) (due_date : Option String) : Option PyDateTime :=
  match due_date with
  | some s =>
    if s ≠ "" ∧ pyStrip s ≠ "" then
      match strptimeYmdHM s with
      | some d => some d
      | none => old   -- ValueError: pass, keep existing
    else none
  | none => none

/-- The priority coercion of `update_todo`: values outside {low, medium, high}
silently become "low". -/
def coercedPriority (priority : String) : String :=
  if priority = "low" ∨ priority = "medium" ∨ priority = "high" then priority else "low"

/-- `PUT /api/todos/{todo_id}` (`update_todo`). -/
def update_todo (db : Db) (todo_id user_id title : String) (note due_date : Option String)
    (priority : String := "low") : Resp × Db :=
  match db.todos.find? (fun t => t.id == todo_id) with
  | none => (.err 404 "Todo not found", db)
  | some todo =>
    match _verify_list_access db todo.list_id user_id with
    | none => (.err 403 "Not authorized", db)
    | some _ =>
      if pyStrip title = "" then (.err 200 "Title is required", db)
      else if title.length > 200 then (.err 200 "Title must be 200 characters or less", db)
      else
        let todo' : Todo :=
          { todo with title := pyStrip title, note := pyStrOpt note,
                      due_date := dueDateUpdate todo.due_date due_date,
                      priority := some (coercedPriority priority) }
        (.okTodo todo', { db with todos := updateFirst (fun t => t.id == todo_id)
                                             (fun _ => todo') db.todos })

/-- The mutation block of `toggle_todo`: flip `is_completed`, then set
`completed_at` to `now` when the todo became complete and clear it otherwise. -/
def toggledTodo (todo : Todo) (now : PyDateTime) : Todo :=
  { todo with is_completed := !todo.is_completed,
              completed_at := if !todo.is_completed then some now else none }

/-- `PATCH /api/todos/{todo_id}/toggle` (`toggle_todo`); `now` is
`datetime.now(timezone.utc)` at the time of the request. -/
def toggle_todo (db : Db) (todo_id user_id : String) (now : PyDateTime) : Resp × Db :=
  match db.todos.find? (fun t => t.id == todo_id) with
  | none => (.err 404 "Todo not found", db)
  | some todo =>
    match _verify_list_access db todo.list_id user_id with
    | none => (.err 403 "Not authorized", db)
    | some _ =>
      let todo' := toggledTodo todo now
      (.okTodo todo', { db with todos := updateFirst (fun t => t.id == todo_id)
                                           (fun _ => todo') db.todos })

/-- `DELETE /api/todos/{todo_id}` (`delete_todo`). -/
def delete_todo (db : Db) (todo_id user_id : String) : Resp × Db :=
  match db.todos.find? (fun t => t.id == todo_id) with
  | none => (.err 404 "", db)
  | some todo =>
    match _verify_list_access db todo.list_id user_id with
    | none => (.err 403 "", db)
    | some _ =>
      (.okStatus, { db with todos := eraseFirst (fun t => t.id == todo_id) db.todos })

/-- The two shift rules of the reorder loop in `reorder_todo`: moving down
(`old < new`) decrements positions in `(old, new]`, moving up increments positions
in `[new, old)`.  The branch on `old < new` is hoisted into this per-row function;
each row is visited once, so the effect is identical to the source's two loops. -/
def shiftPos (old new p : Int) : Int :=
  if old < new then
    if old < p ∧ p ≤ new then p - 1 else p
  else
    if new ≤ p ∧ p < old then p + 1 else p

/-- One iteration of the reorder loop on one row: rows of the list get their
position shifted, rows of other lists are untouched. -/
def shiftRow (lid : String) (old new : Int) (t : Todo) : Todo :=
  if t.list_id == lid then { t with position := shiftPos old new t.position } else t

/-- The net per-row effect of `reorder_todo` in a store with pairwise distinct
row ids: the row with the moved id is shifted (a no-op, its position is `old`)
and then assigned `new`; every other row is only shifted. -/
def movedRow (lid tid : String) (old new : Int) (x : Todo) : Todo :=
  if x.id == tid then { shiftRow lid old new x with position := new }
  else shiftRow lid old new x

/-- `POST /api/todos/{todo_id}/reorder` (`reorder_todo`).  The source iterates over
the list's todos in position order; the per-row update is order-independent, so it
is embedded as a map over the table (rows of other lists untouched).  The moved row
itself never satisfies a shift condition (its position is exactly `old`); its
position is then assigned directly, as in the source. -/
def reorder_todo (db : Db) (todo_id user_id : String) (position : Int) : Resp × Db :=
  match db.todos.find? (fun t => t.id == todo_id) with
  | none => (.err 404 "", db)
  | some todo =>
    match _verify_list_access db todo.list_id user_id with
    | none => (.err 403 "", db)
    | some _ =>
      let old_position := todo.position
      let new_position := position
      if old_position = new_position then (.okStatus, db)
      else
        let shifted := db.todos.map (shiftRow todo.list_id old_position new_position)
        let todos' := updateFirst (fun t => t.id == todo_id)
          (fun t => { t with position := new_position }) shifted
        (.okStatus, { db with todos := todos' })

/-! ## List routes (`src/app/routes/todo_lists.py`) -/

/-- `GET /api/lists` (`get_lists`): the user's lists ordered by position. -/
def get_lists (db : Db) (user_id : String) : Resp :=
  .okLists (List.insertionSort listPosLe (db.lists.filter (fun l => l.user_id == user_id)))

/-- `POST /api/lists` (`create_list`).  Position replays `(max_pos or -1) + 1`
(Python `or`: both `None` and `0` are falsy). -/
def create_list (db : Db) (user_id name : String) (description : Option String)
    (color : String) (new_id : String) : Resp × Db :=
  if pyStrip name = "" then (.err 200 "Name is required", db)
  else if name.length > 100 then (.err 200 "Name must be 100 characters or less", db)
  else
    let max_pos := ((db.lists.filter (fun l => l.user_id == user_id)).map
      (fun l => l.position)).max?
    let falsyOr : Int := match max_pos with
      | none => -1
      | some v => if v = 0 then -1 else v
    let new_pos := falsyOr + 1
    let lst : TodoList :=
      { id := new_id, user_id := user_id, name := pyStrip name,
        description := pyStrOpt description, color := color, position := new_pos }
    (.okList lst, { db with lists := db.lists ++ [lst] })

/-- `GET /api/lists/{list_id}` (`get_list`): 404 both when the list is absent and
when it belongs to another user. -/
def get_list (db : Db) (list_id user_id : String) : Resp :=
  match db.lists.find? (fun l => l.id == list_id && l.user_id == user_id) with
  | none => .err 404 "List not found"
  | some lst => .okList lst

/-- `PUT /api/lists/{list_id}` (`update_list`). -/
def update_list (db : Db) (list_id user_id name : String) (description : Option String)
    (color : String) : Resp × Db :=
  match db.lists.find? (fun l => l.id == list_id && l.user_id == user_id) with
  | none => (.err 404 "List not found", db)
  | some lst =>
    if pyStrip name = "" then (.err 200 "Name is required", db)
    else if name.length > 100 then (.err 200 "Name must be 100 characters or less", db)
    else
      let lst' : TodoList :=
        { lst with name := pyStrip name, description := pyStrOpt description, color := color }
      let lists' := updateFirst (fun l => l.id == list_id && l.user_id == user_id)
        (fun _ => lst') db.lists
      (.okList lst', { db with lists := lists' })

/-- `DELETE /api/lists/{list_id}` (`delete_list`); deleting the list cascades to its
todos (FK `ON DELETE CASCADE` per the route's docstring). -/
def delete_list (db : Db) (list_id user_id : String) : Resp × Db :=
  match db.lists.find? (fun l => l.id == list_id && l.user_id == user_id) with
  | none => (.err 404 "", db)
  | some _ =>
    (.okStatus,
      { db with lists := eraseFirst (fun l => l.id == list_id && l.user_id == user_id) db.lists,
                todos := db.todos.filter (fun t => !(t.list_id == list_id)) })

/-- The loop of `reorder_lists`: for each submitted id, in order, set the position of
the first list matching (id, owner) to the running `enumerate` counter; unmatched
ids are skipped.  `start` is the counter value for the head of `ids`. -/
def assign_positions (lists : List TodoList) (user_id : String) :
    List String → Nat → List TodoList
  | [], _ => lists
  | lid :: rest, start =>
    assign_positions
      (updateFirst (fun l => l.id == lid && l.user_id == user_id)
        (fun l => { l with position := (start : Int) }) lists)
      user_id rest (start + 1)

/-- `POST /api/lists/reorder` (`reorder_lists`): bulk reorder from the submitted id
sequence, then the user's lists re-read in position order (the sidebar rendering). -/
def reorder_lists (db : Db) (user_id : String) (list_id : List String) : Resp × Db :=
  let lists' := assign_positions db.lists user_id list_id 0
  (.okLists (List.insertionSort listPosLe (lists'.filter (fun l => l.user_id == user_id))),
    { db with lists := lists' })

/-! ## Auth routes (`src/app/routes/auth.py`)

`EmailStr._validate` (pydantic) and `bcrypt.checkpw` are external libraries; they are
passed to `login` as abstract boolean predicates. -/

/-- `is_safe_redirect` (`auth.py`). -/
def is_safe_redirect (url : String) : Bool :=
  if url = "" then false
  else url.startsWith "/" && !(url.startsWith "//") && !(strContains "://" url)

/-- `POST /auth/login` (`login`).  `email_valid` models `EmailStr._validate`
succeeding; `checkpw pw hash` models `bcrypt.checkpw`.  Session-cookie issuance on
success is presentation plumbing and is outside the modelled state; success is
reported as the redirect the handler sends. -/
def login (email_valid : String → Bool) (checkpw : String → String → Bool) (db : Db)
    (email password : String) (nxt : String := "/app") : Resp :=
  if !(email_valid email) then .err 200 "Invalid email format"
  else
    match db.users.find? (fun u => u.email == email) with
    | none => .err 200 "Invalid email or password"
    | some user =>
      if !(checkpw password user.password) then .err 200 "Invalid email or password"
      else .redirect (if is_safe_redirect nxt then nxt else "/app")

/-! ## Derived read-only projections used in the claims -/

/-- The sibling set of a list: all todos whose `list_id` is `lid`, in table order. -/
def listTodos (db : Db) (lid : String) : List Todo :=
  db.todos.filter (fun t => t.list_id == lid)

/-- The positions of a list's todos, in table order. -/
def todoPositions (db : Db) (lid : String) : List Int :=
  (listTodos db lid).map (fun t => t.position)

/-- A user's lists, in table order. -/
def userLists (db : Db) (uid : String) : List TodoList :=
  db.lists.filter (fun l => l.user_id == uid)

/-- The positions of a user's lists, in table order. -/
def listPositions (db : Db) (uid : String) : List Int :=
  (userLists db uid).map (fun l => l.position)

/-- `{0, ..., n-1}` as a list of `Int`. -/
def rangeInt (n : Nat) : List Int :=
  (List.range n).map Nat.cast

/-- The net effect of `reorder_todo` on one sibling's position value: the moved
entity (found at `old`) lands on `new`, every other value is shifted by
`shiftPos`. -/
def reorderedPos (old new p : Int) : Int :=
  if p = old then new else shiftPos old new p

/-- Index of the first occurrence of `i` in `ids`: the `enumerate` counter at
which `reorder_lists` assigns `i` its position. -/
def idxIn (ids : List String) (i : String) : Nat :=
  ids.findIdx (fun x => x == i)

/-! ## Concrete fixtures used by witnesses and counterexamples -/

/-- A list row with the given id, owner and position, other fields fixed. -/
def exList (i uid : String) (pos : Int) : TodoList :=
  { id := i, user_id := uid, name := "List", description := none,
    color := "#3b82f6", position := pos }

/-- A todo row with the given id, parent list and position, other fields fixed. -/
def exTodo (i lid : String) (pos : Int) : Todo :=
  { id := i, list_id := lid, title := i, note := none, due_date := none,
    priority := none, is_completed := false, completed_at := none, position := pos }

/-- Three todos A(0) B(1) C(2) in one owned list: the spec's reorder scenario. -/
def dbReorder : Db :=
  { users := [], lists := [exList "lA" "uA" 0],
    todos := [exTodo "a" "lA" 0, exTodo "b" "lA" 1, exTodo "c" "lA" 2] }

/-- One owned list at position 0 holding one todo at position 0: the sibling sets
whose maximum position is 0. -/
def dbMaxZero : Db :=
  { users := [], lists := [exList "lA" "uA" 0], todos := [exTodo "a" "lA" 0] }

/-- The empty store. -/
def dbEmpty : Db := { users := [], lists := [], todos := [] }

/-- A list and todo owned by user uB, against which user uA issues requests. -/
def dbOwn : Db :=
  { users := [], lists := [exList "lB" "uB" 0], todos := [exTodo "tb" "lB" 0] }

/-- User U owns lists A(0) and B(1); user V owns X(0). -/
def dbTwoUsers : Db :=
  { users := [], lists := [exList "A" "U" 0, exList "X" "V" 0, exList "B" "U" 1],
    todos := [] }

/-- User U owns lists A(0) and B(1). -/
def dbSwap : Db :=
  { users := [], lists := [exList "A" "U" 0, exList "B" "U" 1], todos := [] }

/-- A sample stored timestamp. -/
def dt0 : PyDateTime := ⟨2025, 1, 2, 3, 4⟩

/-- Time of a first toggle. -/
def now1 : PyDateTime := ⟨2025, 6, 7, 8, 9⟩

/-- Time of a second toggle. -/
def now2 : PyDateTime := ⟨2026, 1, 1, 0, 0⟩

/-- A stored todo carrying a due date. -/
def dueOrig : Todo := { exTodo "d" "lA" 0 with due_date := some dt0 }

/-- One owned todo carrying a stored due date. -/
def dbDue : Db :=
  { users := [], lists := [exList "lA" "uA" 0], todos := [dueOrig] }

/-- `dueOrig` after `update_todo` with title `"T"`, note `" n "`, the unparsable
due-date input `"bad-date"` and priority `"high"`. -/
def dueT : Todo :=
  { id := "d", list_id := "lA", title := "T", note := some "n", due_date := some dt0,
    priority := some "high", is_completed := false, completed_at := none, position := 0 }

/-- `dbDue` after that update. -/
def dueDb : Db :=
  { users := [], lists := [exList "lA" "uA" 0], todos := [dueT] }

/-- A stored completed todo with a completed-timestamp. -/
def tgE : Todo := { exTodo "e" "lA" 0 with is_completed := true, completed_at := some dt0 }

/-- One owned, completed todo with a stored completed-timestamp. -/
def dbToggle : Db :=
  { users := [], lists := [exList "lA" "uA" 0], todos := [tgE] }

/-- Three owned todos with low / high / null priorities. -/
def dbSearch : Db :=
  { users := [], lists := [exList "lA" "uA" 0],
    todos := [{ exTodo "s1" "lA" 0 with title := "Buy milk", priority := some "low" },
              { exTodo "s2" "lA" 1 with title := "Call mom", priority := some "high" },
              { exTodo "s3" "lA" 2 with title := "buy bread", priority := none }] }

/-- One registered user. -/
def dbAuth : Db :=
  { users := [{ id := "u1", email := "x@example.com", password := "HASH" }],
    lists := [], todos := [] }

/-! # Theorems -/

/-! ## Shared lemmas about the store operations -/

/-- Re-running the query that located the mutated row finds its updated value. -/
theorem find?_updateFirst_of_found (p : α → Bool) (c : α) {l : List α} {a : α}
    (hfind : l.find? p = some a) (hc : p c = true) :
    (updateFirst p (fun _ => c) l).find? p = some c := by
  induction l with
  | nil => simp at hfind
  | cons x xs ih =>
    by_cases hx : p x
    · simp [updateFirst, hx, hc]
    · rw [List.find?_cons_of_neg _ (by simp [hx])] at hfind
      simp [updateFirst, hx, ih hfind]

/-- Characterization of a successful `update_todo`: the returned todo is the found
todo with exactly the four writable fields recomputed, and the store replaces that
row and nothing else. -/
theorem update_todo_ok {db : Db} {tid uid title : String} {note dd : Option String}
    {pr : String} {t t' : Todo} {db' : Db}
    (hfind : db.todos.find? (fun x => x.id == tid) = some t)
    (hok : update_todo db tid uid title note dd pr = (.okTodo t', db')) :
    t' = { t with
            title := pyStrip title,
            note := pyStrOpt note,
            due_date := dueDateUpdate t.due_date dd,
            priority := some (coercedPriority pr) } ∧
    db' = { db with todos := updateFirst (fun x => x.id == tid) (fun _ => t') db.todos } := by
  unfold update_todo at hok
  simp only [hfind] at hok
  rcases hacc : _verify_list_access db t.list_id uid with _ | lst <;>
    simp only [hacc] at hok
  · exact absurd (congrArg Prod.fst hok) (by simp)
  · by_cases h1 : pyStrip title = ""
    · rw [if_pos h1] at hok
      exact absurd (congrArg Prod.fst hok) (by simp)
    · rw [if_neg h1] at hok
      by_cases h2 : title.length > 200
      · rw [if_pos h2] at hok
        exact absurd (congrArg Prod.fst hok) (by simp)
      · rw [if_neg h2] at hok
        simp only [Prod.mk.injEq, Resp.okTodo.injEq] at hok
        obtain ⟨h3, h4⟩ := hok
        constructor
        · exact h3.symm
        · rw [← h4, h3]

/-! ## C2 — position assigned on creation

The spec claims `position = 1 + max existing position (0 if none)`; the code
computes `(max_pos or -1) + 1`, and Python's `or` treats the integer `0` as
falsy exactly like `None`.  The claim (and spec) state the intent — duplicate
positions break the app's own ordering model — so this is a slip in the code. -/

/-- C2: evaluating the creation routes on sibling sets whose maximum existing
position is 0: `create_list` and `create_todo` both assign the new entity
position 0 (a duplicate of the existing position), not 1 as the claim states,
because `(max_pos or -1) + 1` treats a max of `0` as falsy. -/
theorem create_position_max_zero_eval :
    ((create_list dbMaxZero "uA" "Work" none "#3b82f6" "l2").2.lists.map
      (fun l => l.position) = [0, 0]) ∧
    ((create_todo dbMaxZero "uA" "lA" "Task" "t2").2.todos.map
      (fun t => t.position) = [0, 0]) := by
  decide

/-! ## C3 — Forbidden/NotFound split of the Todo Repository get -/

/-- C3 counterexample: in a store with no lists at all, `get_todo` answers
403 Forbidden ("Not authorized"), whereas the claim requires NotFound when the
referenced list does not exist. -/
theorem get_todo_missing_list_cex :
    dbEmpty.lists = [] ∧
    get_todo dbEmpty "t1" "l1" "u1" = .err 403 "Not authorized" := by
  decide

/-- C3 (amended): `get_todo` returns 403 Forbidden exactly when no list with the
given id is owned by the caller — whether the list is absent or another user's —
and 404 NotFound exactly when the caller owns the list but no todo with the given
id is in it; otherwise it returns a todo of that list with the requested id. -/
theorem get_todo_error_cases (db : Db) (tid lid uid : String) :
    (get_todo db tid lid uid = .err 403 "Not authorized" ↔
      ∀ l ∈ db.lists, ¬(l.id = lid ∧ l.user_id = uid)) ∧
    (get_todo db tid lid uid = .err 404 "Todo not found" ↔
      ((∃ l ∈ db.lists, l.id = lid ∧ l.user_id = uid) ∧
        ∀ x ∈ db.todos, ¬(x.id = tid ∧ x.list_id = lid))) ∧
    (∀ td, get_todo db tid lid uid = .okTodo td →
      td ∈ db.todos ∧ td.id = tid ∧ td.list_id = lid) := by
  unfold get_todo _verify_list_access
  rcases hl : db.lists.find? (fun l => l.id == lid && l.user_id == uid) with _ | l <;>
    rw [hl]
  · rw [List.find?_eq_none] at hl
    have hl' : ∀ l ∈ db.lists, ¬(l.id = lid ∧ l.user_id = uid) := by
      intro l hm hc
      have := hl l hm
      simp [hc.1, hc.2] at this
    refine ⟨iff_of_true rfl hl', iff_of_false (by simp) ?_, by simp⟩
    rintro ⟨⟨l, hm, hc⟩, -⟩
    exact hl' l hm hc
  · have hcl := List.find?_some hl
    have hlm := List.mem_of_find?_eq_some hl
    simp only [Bool.and_eq_true, beq_iff_eq] at hcl
    rcases ht : db.todos.find? (fun x => x.id == tid && x.list_id == lid) with _ | td <;>
      rw [ht]
    · rw [List.find?_eq_none] at ht
      have ht' : ∀ x ∈ db.todos, ¬(x.id = tid ∧ x.list_id = lid) := by
        intro x hm hc
        have := ht x hm
        simp [hc.1, hc.2] at this
      refine ⟨iff_of_false (by simp) ?_, iff_of_true rfl ⟨⟨l, hlm, hcl.1, hcl.2⟩, ht'⟩, by simp⟩
      intro h
      exact h l hlm ⟨hcl.1, hcl.2⟩
    · have hct := List.find?_some ht
      have htm := List.mem_of_find?_eq_some ht
      simp only [Bool.and_eq_true, beq_iff_eq] at hct
      refine ⟨iff_of_false (by simp) ?_, iff_of_false (by simp) ?_, ?_⟩
      · intro h
        exact h l hlm ⟨hcl.1, hcl.2⟩
      · rintro ⟨-, h⟩
        exact h td htm ⟨hct.1, hct.2⟩
      · intro td' h
        have : td = td' := by simpa using h
        subst this
        exact ⟨htm, hct.1, hct.2⟩

/-- Characterization of a successful `toggle_todo`: the found todo's flag flips,
the timestamp follows the new flag, and the store replaces that row. -/
theorem toggle_todo_ok (db : Db) {tid uid : String} (n : PyDateTime) {t : Todo}
    {lst : TodoList}
    (hfind : db.todos.find? (fun x => x.id == tid) = some t)
    (hlst : _verify_list_access db t.list_id uid = some lst) :
    toggle_todo db tid uid n =
      (.okTodo (toggledTodo t n),
       { db with
           todos := updateFirst (fun x => x.id == tid) (fun _ => toggledTodo t n) db.todos }) := by
  unfold toggle_todo
  simp only [hfind, hlst]

/-! ## C6 — due-date handling on update -/

/-- C6 counterexample: a whitespace-only due-date input `" "` is a non-empty
string that fails to parse, yet the update *clears* the stored due date instead
of leaving it unchanged (`due_date.strip()` is falsy, so the code takes the
clear branch before ever parsing). -/
theorem update_blank_due_date_cex :
    dbDue.todos.map (fun t => t.due_date) = [some dt0] ∧
    (" " : String) ≠ "" ∧
    strptimeYmdHM " " = none ∧
    (update_todo dbDue "d" "uA" "T" none (some " ") "low").2.todos.map
      (fun t => t.due_date) = [none] := by
  decide

/-- C6 (amended): on a successful update, a due-date input that is non-blank
(non-empty after stripping) but unparsable leaves the stored due_date unchanged
and surfaces no error — the other updated fields still take effect — while an
absent, empty, or whitespace-only input clears due_date; a parsable non-blank
input stores the parsed value. -/
theorem update_todo_due_date_handling (db : Db) (tid uid title : String)
    (note dd : Option String) (pr : String) (t t' : Todo) (db' : Db)
    (hfind : db.todos.find? (fun x => x.id == tid) = some t)
    (hok : update_todo db tid uid title note dd pr = (.okTodo t', db')) :
    (∀ s, dd = some s → pyStrip s ≠ "" → strptimeYmdHM s = none →
      t'.due_date = t.due_date) ∧
    (∀ s d, dd = some s → pyStrip s ≠ "" → strptimeYmdHM s = some d →
      t'.due_date = some d) ∧
    ((∀ s, dd = some s → pyStrip s = "") → t'.due_date = none) ∧
    t'.title = pyStrip title ∧
    t'.priority = some (coercedPriority pr) ∧
    t'.note = pyStrOpt note := by
  obtain ⟨ht', -⟩ := update_todo_ok hfind hok
  subst ht'
  refine ⟨?_, ?_, ?_, rfl, rfl, rfl⟩
  · rintro s rfl hns hparse
    have hs : s ≠ "" := by rintro rfl; exact hns rfl
    simp [dueDateUpdate, hs, hns, hparse]
  · rintro s d rfl hns hparse
    have hs : s ≠ "" := by rintro rfl; exact hns rfl
    simp [dueDateUpdate, hs, hns, hparse]
  · intro hblank
    cases dd with
    | none => simp [dueDateUpdate]
    | some s => simp [dueDateUpdate, hblank s rfl]

/-- C6 witness: updating the stored todo `dueOrig` with the unparsable non-blank
due-date input `"bad-date"` keeps its stored due date. -/
theorem update_todo_due_date_handling_witness :
    dueT.due_date = dueOrig.due_date :=
  (update_todo_due_date_handling dbDue "d" "uA" "T" (some " n ") (some "bad-date")
    "high" dueOrig dueT dueDb (by decide) (by decide)).1 "bad-date" rfl
    (by decide) (by decide)

/-! ## C8 — toggle semantics -/

/-- C8 counterexample: a todo stored complete with timestamp `dt0`, toggled twice,
ends complete with timestamp `now2` — the time of the second toggle, not the
original `dt0` — so the completed-timestamp does not return to its original
state. -/
theorem toggle_twice_timestamp_cex :
    dbToggle.todos.map (fun t => (t.is_completed, t.completed_at)) =
      [(true, some dt0)] ∧
    (toggle_todo (toggle_todo dbToggle "e" "uA" now1).2 "e" "uA" now2).2.todos.map
      (fun t => (t.is_completed, t.completed_at)) = [(true, some now2)] ∧
    now2 ≠ dt0 := by
  decide

/-- C8 (amended): toggle flips the completion flag, stamps the current time when
the todo becomes complete and clears the timestamp when it becomes incomplete;
toggling twice always restores the flag, and restores the timestamp when the todo
was originally incomplete with an absent timestamp — but an originally complete
todo ends with the second toggle's time as its timestamp, not its original one. -/
theorem toggle_todo_spec (db : Db) (tid uid : String) (n1 n2 : PyDateTime) (t : Todo)
    (hfind : db.todos.find? (fun x => x.id == tid) = some t)
    (hacc : (_verify_list_access db t.list_id uid).isSome = true) :
    ∃ t1 db1, toggle_todo db tid uid n1 = (.okTodo t1, db1) ∧
      t1.is_completed = !t.is_completed ∧
      t1.completed_at = (if t.is_completed then none else some n1) ∧
      ∃ t2 db2, toggle_todo db1 tid uid n2 = (.okTodo t2, db2) ∧
        t2.is_completed = t.is_completed ∧
        t2.completed_at = (if t.is_completed then some n2 else none) ∧
        (t.is_completed = false → t.completed_at = none →
          t2.is_completed = t.is_completed ∧ t2.completed_at = t.completed_at) := by
  obtain ⟨lst, hlst⟩ := Option.isSome_iff_exists.mp hacc
  have hpt := List.find?_some hfind
  have h1 := toggle_todo_ok db n1 hfind hlst
  have hfind2 : (updateFirst (fun x => x.id == tid)
        (fun _ => toggledTodo t n1) db.todos).find? (fun x => x.id == tid) =
      some (toggledTodo t n1) :=
    find?_updateFirst_of_found _ _ hfind (by simpa [toggledTodo] using hpt)
  have h2 := toggle_todo_ok
    { db with
        todos := updateFirst (fun x => x.id == tid) (fun _ => toggledTodo t n1) db.todos }
    n2 hfind2 hlst
  refine ⟨_, _, h1, ?_, ?_, _, _, h2, ?_, ?_, ?_⟩
  · simp [toggledTodo]
  · cases hc : t.is_completed <;> simp [toggledTodo, hc]
  · simp [toggledTodo]
  · cases hc : t.is_completed <;> simp [toggledTodo, hc]
  · intro hf hc
    simp [toggledTodo, hf, hc]

/-- C8 witness: the two single-toggle clauses and the double-toggle clauses of
the amended claim, at the stored complete todo `tgE`. -/
theorem toggle_todo_spec_witness :
    ∃ t1 db1, toggle_todo dbToggle "e" "uA" now1 = (.okTodo t1, db1) ∧
      t1.is_completed = !tgE.is_completed ∧
      t1.completed_at = (if tgE.is_completed then none else some now1) ∧
      ∃ t2 db2, toggle_todo db1 "e" "uA" now2 = (.okTodo t2, db2) ∧
        t2.is_completed = tgE.is_completed ∧
        t2.completed_at = (if tgE.is_completed then some now2 else none) ∧
        (tgE.is_completed = false → tgE.completed_at = none →
          t2.is_completed = tgE.is_completed ∧ t2.completed_at = tgE.completed_at) :=
  toggle_todo_spec dbToggle "e" "uA" now1 now2 tgE (by decide) (by decide)

/-! ## C10 — frame of update_todo -/

/-- C10: a successful todo update changes only title, note, due_date and
priority: the todo's id, owning list id, position, completion flag and
completed-timestamp are unchanged, and so are the other tables of the store. -/
theorem update_todo_frame (db : Db) (tid uid title : String) (note dd : Option String)
    (pr : String) (t t' : Todo) (db' : Db)
    (hfind : db.todos.find? (fun x => x.id == tid) = some t)
    (hok : update_todo db tid uid title note dd pr = (.okTodo t', db')) :
    t'.id = t.id ∧ t'.list_id = t.list_id ∧ t'.position = t.position ∧
    t'.is_completed = t.is_completed ∧ t'.completed_at = t.completed_at ∧
    db'.users = db.users ∧ db'.lists = db.lists := by
  obtain ⟨ht', hdb'⟩ := update_todo_ok hfind hok
  subst ht'
  subst hdb'
  exact ⟨rfl, rfl, rfl, rfl, rfl, rfl, rfl⟩

/-- C10 witness: the frame condition at a concrete successful update. -/
theorem update_todo_frame_witness :
    dueT.id = dueOrig.id ∧ dueT.list_id = dueOrig.list_id ∧
    dueT.position = dueOrig.position ∧
    dueT.is_completed = dueOrig.is_completed ∧
    dueT.completed_at = dueOrig.completed_at ∧
    dueDb.users = dbDue.users ∧ dueDb.lists = dbDue.lists :=
  update_todo_frame dbDue "d" "uA" "T" (some " n ") (some "bad-date") "high"
    dueOrig dueT dueDb (by decide) (by decide)

/-! ## C9 — generic login failure -/

/-- C9: with a syntactically valid email, a failed login produces one and the
same generic error value — the identical `Resp` whether no user carries that
email or the matched user's password check fails — so the response does not
reveal which case occurred. -/
theorem login_generic_error (ev : String → Bool) (cp : String → String → Bool)
    (db : Db) (email pw nxt : String) (hvalid : ev email = true)
    (hfail : db.users.find? (fun u => u.email == email) = none ∨
      ∃ u, db.users.find? (fun u => u.email == email) = some u ∧
        cp pw u.password = false) :
    login ev cp db email pw nxt = .err 200 "Invalid email or password" := by
  unfold login
  rcases hfail with h | ⟨u, hu, hcp⟩
  · simp [hvalid, h]
  · simp [hvalid, hu, hcp]

/-- C9 witness: a concrete store with one user; a login attempt under a valid
unknown email fails with the generic error. -/
theorem login_generic_error_witness :
    login (fun _ => true) (fun p h => p == h) dbAuth "y@example.com" "pw" "/app" =
      .err 200 "Invalid email or password" :=
  login_generic_error _ _ _ _ _ _ rfl (Or.inl (by decide))

/-! ## Generic lemmas about `updateFirst` and position ranges -/

/-- When at most one row matches, updating the first match is a pointwise map. -/
theorem updateFirst_eq_map (p : α → Bool) (f : α → α) (l : List α)
    (h : l.countP p ≤ 1) :
    updateFirst p f l = l.map (fun x => if p x then f x else x) := by
  induction l with
  | nil => rfl
  | cons x xs ih =>
    by_cases hx : p x
    · have h0 : xs.countP p = 0 := by
        have := List.countP_cons_of_pos (p := p) xs hx
        omega
      have hnone : ∀ y ∈ xs, ¬p y = true := List.countP_eq_zero.mp h0
      simp only [updateFirst, if_pos hx, List.map_cons]
      congr 1
      have hmap : xs.map (fun y => if p y then f y else y) = xs.map (fun y => y) :=
        List.map_congr_left (fun a ha => if_neg (hnone a ha))
      rw [hmap, List.map_id']
    · have h' : xs.countP p ≤ 1 := by
        have := List.countP_cons_of_neg (p := p) xs hx
        omega
      simp only [updateFirst, if_neg hx, List.map_cons, ih h']

/-- Rows with pairwise distinct keys: at most one row can satisfy a predicate
that pins the key to one value. -/
theorem countP_le_one_of_nodup_key {β : Type} [DecidableEq β] {l : List α}
    (k : α → β) (hn : (l.map k).Nodup) (c : β) (p : α → Bool)
    (hp : ∀ x, p x = true → k x = c) :
    l.countP p ≤ 1 := by
  induction l with
  | nil => simp
  | cons x xs ih =>
    simp only [List.map_cons, List.nodup_cons] at hn
    by_cases hx : p x
    · have h0 : xs.countP p = 0 := by
        rw [List.countP_eq_zero]
        intro y hy hpy
        have h1 : k y = k x := by rw [hp y hpy, hp x hx]
        exact hn.1 (h1 ▸ List.mem_map_of_mem k hy)
      have := List.countP_cons_of_pos (p := p) xs hx
      omega
    · have := List.countP_cons_of_neg (p := p) xs hx
      rw [this]
      exact ih hn.2
/-- `updateFirst` leaves every key untouched when the update function does. -/
theorem map_key_updateFirst (p : α → Bool) (f : α → α) (k : α → β) (l : List α)
    (hf : ∀ x, k (f x) = k x) :
    (updateFirst p f l).map k = l.map k := by
  induction l with
  | nil => rfl
  | cons x xs ih =>
    by_cases hx : p x <;> simp [updateFirst, hx, hf, ih]

/-- Membership in `{0, ..., n-1}` as bounds. -/
theorem mem_rangeInt {n : Nat} {a : Int} : a ∈ rangeInt n ↔ 0 ≤ a ∧ a < (n : Int) := by
  unfold rangeInt
  rw [List.mem_map]
  constructor
  · rintro ⟨k, hk, he⟩
    rw [List.mem_range] at hk
    have he2 : ((k : Nat) : Int) = a := he
    omega
  · intro h
    refine ⟨a.toNat, by rw [List.mem_range]; omega, ?_⟩
    show ((a.toNat : Nat) : Int) = a
    omega

/-- `{0, ..., n-1}` has no duplicates. -/
theorem nodup_rangeInt (n : Nat) : (rangeInt n).Nodup := by
  unfold rangeInt
  refine List.Nodup.map ?_ (List.nodup_range n)
  intro a b h
  have h2 : ((a : Nat) : Int) = ((b : Nat) : Int) := h
  omega

/-! ## Lemmas for the bulk list reorder (C5) -/

/-- `idxIn` on the head. -/
theorem idxIn_cons_self (i : String) (rest : List String) :
    idxIn (i :: rest) i = 0 := by
  simp [idxIn, List.findIdx_cons]

/-- `idxIn` past a differing head. -/
theorem idxIn_cons_ne {j i : String} (rest : List String) (h : j ≠ i) :
    idxIn (j :: rest) i = idxIn rest i + 1 := by
  have hb : (j == i) = false := beq_eq_false_iff_ne.mpr h
  simp [idxIn, List.findIdx_cons, hb]

/-- Mapping every element of a duplicate-free list to its own first index
enumerates `0, ..., n-1` in order. -/
theorem map_idxIn_self (ids : List String) (h : ids.Nodup) :
    ids.map (fun i => idxIn ids i) = List.range ids.length := by
  induction ids with
  | nil => rfl
  | cons a rest ih =>
    rw [List.nodup_cons] at h
    rw [List.map_cons, idxIn_cons_self, List.length_cons, List.range_succ_eq_map]
    congr 1
    have h1 : rest.map (fun i => idxIn (a :: rest) i) =
        rest.map (fun i => idxIn rest i + 1) := by
      apply List.map_congr_left
      intro x hx
      exact idxIn_cons_ne rest (fun hax => h.1 (hax ▸ hx))
    rw [h1, ← ih h.2, List.map_map]
    rfl

/-- The loop of `reorder_lists` as a pointwise map: with duplicate-free submitted
ids and duplicate-free stored list ids, each stored list owned by `uid` whose id
occurs in the sequence gets position `start +` its index in the sequence, and
every other row is untouched. -/
theorem assign_positions_eq_map (uid : String) (ids : List String)
    (lists : List TodoList) (start : Nat) (hidsN : ids.Nodup)
    (hlN : (lists.map (fun l => l.id)).Nodup) :
    assign_positions lists uid ids start = lists.map (fun l =>
      if l.user_id = uid ∧ l.id ∈ ids
      then { l with position := ((start + idxIn ids l.id : Nat) : Int) } else l) := by
  induction ids generalizing lists start with
  | nil =>
    simp only [assign_positions, List.not_mem_nil, and_false, if_false]
    rw [List.map_id']
  | cons lid rest ih =>
    rw [List.nodup_cons] at hidsN
    rw [assign_positions]
    have hkeys : (List.map (fun l => l.id)
        (updateFirst (fun l => l.id == lid && l.user_id == uid)
          (fun l => { l with position := (start : Int) }) lists)).Nodup := by
      rw [map_key_updateFirst _ (fun l => { l with position := (start : Int) })
        (fun l => l.id) lists (fun x => rfl)]
      exact hlN
    rw [ih _ _ hidsN.2 hkeys]
    have hcount : lists.countP (fun l => l.id == lid && l.user_id == uid) ≤ 1 :=
      countP_le_one_of_nodup_key (fun l => l.id) hlN lid _
        (fun x hx => by
          simp only [Bool.and_eq_true, beq_iff_eq] at hx
          exact hx.1)
    rw [updateFirst_eq_map _ _ _ hcount]
    rw [List.map_map]
    apply List.map_congr_left
    intro l hl
    simp only [Function.comp]
    by_cases hu : l.user_id = uid
    · by_cases hid : l.id = lid
      · have hb : (l.id == lid && l.user_id == uid) = true := by simp [hid, hu]
        have hnr : l.id ∉ rest := by rw [hid]; exact hidsN.1
        simp only [hb, if_true]
        rw [if_neg (by simp [hnr])]
        rw [if_pos ⟨hu, by simp [hid]⟩]
        rw [hid, idxIn_cons_self]
        simp
      · have hb : (l.id == lid && l.user_id == uid) = false := by simp [hid]
        simp only [hb, Bool.false_eq_true, if_false]
        by_cases hm : l.id ∈ rest
        · rw [if_pos ⟨hu, hm⟩, if_pos ⟨hu, by simp [hm]⟩]
          rw [idxIn_cons_ne rest (fun h => hid h.symm)]
          congr 2
          omega
        · rw [if_neg (fun h => hm h.2)]
          rw [if_neg ?hc]
          case hc =>
            rintro ⟨-, hmem⟩
            rw [List.mem_cons] at hmem
            rcases hmem with h | h
            · exact hid h
            · exact hm h
    · have hb : (l.id == lid && l.user_id == uid) = false := by simp [hu]
      simp only [hb, Bool.false_eq_true, if_false]
      rw [if_neg (fun h => hu h.1), if_neg (fun h => hu h.1)]

/-! ## C5 — bulk list reorder -/

/-- C5 counterexample: user U owns exactly two lists A and B; the submitted
sequence [A, X, B] interleaves another user's id X.  X is skipped but the
`enumerate` counter still advances, so U's lists end at positions {0, 2} — not
{0, ..., n-1} for n = 2 owned lists (nor for n = 3 submitted ids). -/
theorem reorder_lists_skipped_gap_cex :
    (userLists dbTwoUsers "U").length = 2 ∧
    listPositions (reorder_lists dbTwoUsers "U" ["A", "X", "B"]).2 "U" = [0, 2] ∧
    ¬ (listPositions (reorder_lists dbTwoUsers "U" ["A", "X", "B"]).2 "U").Perm
        (rangeInt 2) ∧
    ¬ (listPositions (reorder_lists dbTwoUsers "U" ["A", "X", "B"]).2 "U").Perm
        (rangeInt 3) := by
  decide

/-- C5 (amended): each of the user's lists whose id occurs in the submitted
sequence is assigned position = the index of that id in the sequence (skipped
foreign ids still advance the counter), other users' rows are untouched, and ids
not belonging to the user are silently skipped without error; when the submitted
sequence consists exactly of the user's own list ids (each once), the user's
positions afterwards are the indices of the submitted sequence — so ordering the
user's lists by position reproduces the submitted order — and form exactly
`{0, ..., n-1}`. -/
theorem reorder_lists_assigns_sequence_positions (db : Db) (uid : String)
    (ids : List String) (hidsN : ids.Nodup)
    (hdbN : (db.lists.map (fun l => l.id)).Nodup)
    (hcover : ∀ l ∈ db.lists, l.user_id = uid → l.id ∈ ids)
    (hown : ∀ i ∈ ids, ∃ l ∈ db.lists, l.id = i ∧ l.user_id = uid) :
    (reorder_lists db uid ids).2.lists = db.lists.map (fun l =>
      if l.user_id = uid then { l with position := (idxIn ids l.id : Int) } else l) ∧
    listPositions (reorder_lists db uid ids).2 uid =
      (userLists db uid).map (fun l => (idxIn ids l.id : Int)) ∧
    (listPositions (reorder_lists db uid ids).2 uid).Perm (rangeInt ids.length) := by
  have h1 : (reorder_lists db uid ids).2.lists = db.lists.map (fun l =>
      if l.user_id = uid then { l with position := (idxIn ids l.id : Int) } else l) := by
    show assign_positions db.lists uid ids 0 = _
    rw [assign_positions_eq_map uid ids db.lists 0 hidsN hdbN]
    apply List.map_congr_left
    intro l hl
    by_cases hu : l.user_id = uid
    · rw [if_pos ⟨hu, hcover l hl hu⟩, if_pos hu]
      simp
    · rw [if_neg (fun h => hu h.1), if_neg hu]
  have h2 : listPositions (reorder_lists db uid ids).2 uid =
      (userLists db uid).map (fun l => (idxIn ids l.id : Int)) := by
    unfold listPositions userLists
    rw [h1, List.filter_map]
    have hfc : db.lists.filter ((fun l => l.user_id == uid) ∘ (fun l =>
        if l.user_id = uid then { l with position := (idxIn ids l.id : Int) } else l)) =
        db.lists.filter (fun l => l.user_id == uid) := by
      apply List.filter_congr
      intro x _
      by_cases hu : x.user_id = uid <;> simp [hu]
    rw [hfc, List.map_map]
    apply List.map_congr_left
    intro l hl
    have hu : l.user_id = uid := by simpa using (List.of_mem_filter hl)
    simp [Function.comp, hu]
  have hids_perm : ((userLists db uid).map (fun l => l.id)).Perm ids := by
    rw [List.perm_ext_iff_of_nodup ?n1 hidsN]
    · intro i
      constructor
      · intro hi
        rw [List.mem_map] at hi
        obtain ⟨l, hl, rfl⟩ := hi
        have hl2 := List.mem_filter.mp hl
        exact hcover l hl2.1 (by simpa using hl2.2)
      · intro hi
        obtain ⟨l, hl, hlid, hlu⟩ := hown i hi
        rw [List.mem_map]
        exact ⟨l, List.mem_filter.mpr ⟨hl, by simp [hlu]⟩, hlid⟩
    · exact ((db.lists.filter_sublist.map (fun l => l.id)).nodup hdbN)
  refine ⟨h1, h2, ?_⟩
  rw [h2]
  have h3 : (userLists db uid).map (fun l => (idxIn ids l.id : Int)) =
      ((userLists db uid).map (fun l => l.id)).map (fun i => (idxIn ids i : Int)) := by
    rw [List.map_map]
    rfl
  rw [h3]
  refine (hids_perm.map _).trans ?_
  have h4 : ids.map (fun i => (idxIn ids i : Int)) = rangeInt ids.length := by
    have h5 : ids.map (fun i => (idxIn ids i : Int)) =
        (ids.map (fun i => idxIn ids i)).map Nat.cast := by
      rw [List.map_map]
      rfl
    rw [h5, map_idxIn_self ids hidsN]
    rfl
  rw [h4]

/-- C5 witness: user U's lists A(0), B(1) reordered by the sequence [B, A]. -/
theorem reorder_lists_assigns_sequence_positions_witness :
    (reorder_lists dbSwap "U" ["B", "A"]).2.lists = dbSwap.lists.map (fun l =>
      if l.user_id = "U" then { l with position := (idxIn ["B", "A"] l.id : Int) } else l) ∧
    listPositions (reorder_lists dbSwap "U" ["B", "A"]).2 "U" =
      (userLists dbSwap "U").map (fun l => (idxIn ["B", "A"] l.id : Int)) ∧
    (listPositions (reorder_lists dbSwap "U" ["B", "A"]).2 "U").Perm (rangeInt 2) :=
  reorder_lists_assigns_sequence_positions dbSwap "U" ["B", "A"]
    (by decide) (by decide) (by decide)
    (by intro i hi; fin_cases hi
        · exact ⟨exList "B" "U" 1, by decide, rfl, rfl⟩
        · exact ⟨exList "A" "U" 0, by decide, rfl, rfl⟩)

/-! ## C7 — search semantics -/

/-- C7: over an owned list, search returns exactly the todos of that list that
pass both filters composed by AND — the title filter (case-insensitive substring
of the stripped query, skipped when the stripped query is empty) and the
priority filter (exact match when the filter is one of low/medium/high, so
null-priority todos are excluded there; any other value, the empty string
included, imposes no priority restriction, so all todos including null-priority
ones pass) — and the result is ordered by position ascending. -/
theorem search_todos_filter_spec (db : Db) (uid lid q pr : String) (lst : TodoList)
    (hacc : _verify_list_access db lid uid = some lst) :
    ∃ ts, search_todos db uid lid q pr = .okTodos ts ∧
      (∀ x, x ∈ ts ↔ (x ∈ db.todos ∧ x.list_id = lid ∧
        (pyStrip q ≠ "" → ilikeContains (pyStrip q) x.title = true) ∧
        ((pr = "low" ∨ pr = "medium" ∨ pr = "high") → x.priority = some pr))) ∧
      ts.Sorted todoPosLe := by
  unfold search_todos
  rw [hacc]
  refine ⟨_, rfl, ?_, List.sorted_insertionSort _ _⟩
  intro x
  rw [List.mem_insertionSort]
  by_cases hq : pyStrip q = ""
  · by_cases hp : pr = "low" ∨ pr = "medium" ∨ pr = "high"
    · have hne : pr ≠ "" := by rcases hp with h | h | h <;> simp [h]
      rw [if_pos ⟨hne, hp⟩, if_neg (not_not_intro hq)]
      simp only [List.mem_filter, Bool.and_eq_true, beq_iff_eq]
      constructor
      · rintro ⟨⟨hmem, hlid⟩, hprio⟩
        exact ⟨hmem, hlid, fun h => absurd hq h, fun _ => hprio⟩
      · rintro ⟨hmem, hlid, -, hprio⟩
        exact ⟨⟨hmem, hlid⟩, hprio hp⟩
    · rw [if_neg (fun h => hp h.2), if_neg (not_not_intro hq)]
      simp only [List.mem_filter, Bool.and_eq_true, beq_iff_eq]
      constructor
      · rintro ⟨hmem, hlid⟩
        exact ⟨hmem, hlid, fun h => absurd hq h, fun h => absurd h hp⟩
      · rintro ⟨hmem, hlid, -, -⟩
        exact ⟨hmem, hlid⟩
  · by_cases hp : pr = "low" ∨ pr = "medium" ∨ pr = "high"
    · have hne : pr ≠ "" := by rcases hp with h | h | h <;> simp [h]
      rw [if_pos ⟨hne, hp⟩, if_pos hq]
      simp only [List.mem_filter, Bool.and_eq_true, beq_iff_eq]
      constructor
      · rintro ⟨⟨⟨hmem, hlid⟩, hilike⟩, hprio⟩
        exact ⟨hmem, hlid, fun _ => hilike, fun _ => hprio⟩
      · rintro ⟨hmem, hlid, hilike, hprio⟩
        exact ⟨⟨⟨hmem, hlid⟩, hilike hq⟩, hprio hp⟩
    · rw [if_neg (fun h => hp h.2), if_pos hq]
      simp only [List.mem_filter, Bool.and_eq_true, beq_iff_eq]
      constructor
      · rintro ⟨⟨hmem, hlid⟩, hilike⟩
        exact ⟨hmem, hlid, fun _ => hilike, fun h => absurd h hp⟩
      · rintro ⟨hmem, hlid, hilike, -⟩
        exact ⟨⟨hmem, hlid⟩, hilike hq⟩

/-- C7 witness: searching the concrete list for "buy" with no priority filter. -/
theorem search_todos_filter_spec_witness :
    ∃ ts, search_todos dbSearch "uA" "lA" "buy" "" = .okTodos ts ∧
      (∀ x, x ∈ ts ↔ (x ∈ dbSearch.todos ∧ x.list_id = "lA" ∧
        (pyStrip "buy" ≠ "" → ilikeContains (pyStrip "buy") x.title = true) ∧
        ((("" : String) = "low" ∨ ("" : String) = "medium" ∨ ("" : String) = "high") →
          x.priority = some ""))) ∧
      ts.Sorted todoPosLe :=
  search_todos_filter_spec dbSearch "uA" "lA" "buy" "" (exList "lA" "uA" 0) (by decide)

/-! ## C4 — ownership isolation -/

/-- C4: a user A never reaches another user B's data: when the first todo with
the requested id belongs to a list owned by B, A's get/update/toggle/delete on
it fail with 403 Forbidden; when the requested list id belongs to B, A's
get/update/delete on the list fail with 404 NotFound; in every case the store is
returned unchanged.  Each operation re-runs the ownership query
(`_verify_list_access`, or the owner-scoped list lookup) on the live store. -/
theorem ownership_isolation (db : Db) (A B tid lid : String) (t : Todo)
    (title name color pr : String) (note dd desc : Option String) (now : PyDateTime)
    (hAB : A ≠ B)
    (hfind : db.todos.find? (fun x => x.id == tid) = some t)
    (hown : ∀ l ∈ db.lists, l.id = t.list_id → l.user_id = B)
    (_hlEx : ∃ l ∈ db.lists, l.id = lid)
    (hlown : ∀ l ∈ db.lists, l.id = lid → l.user_id = B) :
    get_todo db tid t.list_id A = .err 403 "Not authorized" ∧
    update_todo db tid A title note dd pr = (.err 403 "Not authorized", db) ∧
    toggle_todo db tid A now = (.err 403 "Not authorized", db) ∧
    delete_todo db tid A = (.err 403 "", db) ∧
    get_list db lid A = .err 404 "List not found" ∧
    update_list db lid A name desc color = (.err 404 "List not found", db) ∧
    delete_list db lid A = (.err 404 "", db) := by
  have haccT : _verify_list_access db t.list_id A = none := by
    unfold _verify_list_access
    rw [List.find?_eq_none]
    intro l hl hcond
    simp only [Bool.and_eq_true, beq_iff_eq] at hcond
    have hB := hown l hl hcond.1
    rw [hB] at hcond
    exact hAB hcond.2.symm
  have haccL : db.lists.find? (fun l => l.id == lid && l.user_id == A) = none := by
    rw [List.find?_eq_none]
    intro l hl hcond
    simp only [Bool.and_eq_true, beq_iff_eq] at hcond
    have hB := hlown l hl hcond.1
    rw [hB] at hcond
    exact hAB hcond.2.symm
  refine ⟨?_, ?_, ?_, ?_, ?_, ?_, ?_⟩
  · unfold get_todo
    rw [haccT]
  · unfold update_todo
    simp only [hfind, haccT]
  · unfold toggle_todo
    simp only [hfind, haccT]
  · unfold delete_todo
    simp only [hfind, haccT]
  · unfold get_list
    rw [haccL]
  · unfold update_list
    simp only [haccL]
  · unfold delete_list
    simp only [haccL]

/-- C4 witness: user uA against user uB's stored list and todo. -/
theorem ownership_isolation_witness :
    get_todo dbOwn "tb" (exTodo "tb" "lB" 0).list_id "uA" = .err 403 "Not authorized" ∧
    update_todo dbOwn "tb" "uA" "X" none none "low" = (.err 403 "Not authorized", dbOwn) ∧
    toggle_todo dbOwn "tb" "uA" now1 = (.err 403 "Not authorized", dbOwn) ∧
    delete_todo dbOwn "tb" "uA" = (.err 403 "", dbOwn) ∧
    get_list dbOwn "lB" "uA" = .err 404 "List not found" ∧
    update_list dbOwn "lB" "uA" "N" none "#fff" = (.err 404 "List not found", dbOwn) ∧
    delete_list dbOwn "lB" "uA" = (.err 404 "", dbOwn) :=
  ownership_isolation dbOwn "uA" "uB" "tb" "lB" (exTodo "tb" "lB" 0)
    "X" "N" "#fff" "low" none none none now1
    (by decide) (by decide) (by decide) ⟨exList "lB" "uB" 0, by decide, rfl⟩ (by decide)

/-! ## Lemmas for the single-item todo reorder (C1) -/

/-- The moved row itself is never shifted: both windows exclude `old`. -/
theorem shiftPos_self (old np : Int) : shiftPos old np old = old := by
  unfold shiftPos
  split_ifs <;> omega

/-- On values other than `old`, the shift is strictly monotone, so the relative
order of the unmoved rows is preserved. -/
theorem shiftPos_lt_iff (old np p q : Int) (hp : p ≠ old) (hq : q ≠ old) :
    shiftPos old np p < shiftPos old np q ↔ p < q := by
  unfold shiftPos
  split_ifs <;> omega

/-- The full per-value effect of a reorder is injective. -/
theorem reorderedPos_injective (old np : Int) :
    Function.Injective (reorderedPos old np) := by
  intro a b h
  unfold reorderedPos shiftPos at h
  split_ifs at h <;> omega

/-- The full per-value effect of a reorder permutes `{0, ..., n-1}` when both
`old` and `new` lie in it. -/
theorem reorderedPos_range_perm (old np : Int) (n : Nat)
    (h1 : 0 ≤ old) (h2 : old < (n : Int)) (h3 : 0 ≤ np) (h4 : np < (n : Int)) :
    ((rangeInt n).map (reorderedPos old np)).Perm (rangeInt n) := by
  rw [List.perm_ext_iff_of_nodup
    (List.Nodup.map (reorderedPos_injective old np) (nodup_rangeInt n)) (nodup_rangeInt n)]
  intro a
  rw [List.mem_map]
  constructor
  · rintro ⟨b, hb, rfl⟩
    rw [mem_rangeInt] at hb ⊢
    unfold reorderedPos shiftPos
    split_ifs <;> omega
  · intro ha
    rw [mem_rangeInt] at ha
    by_cases hc1 : a = np
    · refine ⟨old, mem_rangeInt.mpr ⟨h1, h2⟩, ?_⟩
      unfold reorderedPos
      rw [if_pos rfl, hc1]
    · by_cases hc2 : old < np ∧ old ≤ a ∧ a < np
      · refine ⟨a + 1, mem_rangeInt.mpr (by omega), ?_⟩
        unfold reorderedPos shiftPos
        split_ifs <;> omega
      · by_cases hc3 : np < old ∧ np < a ∧ a ≤ old
        · refine ⟨a - 1, mem_rangeInt.mpr (by omega), ?_⟩
          unfold reorderedPos shiftPos
          split_ifs <;> omega
        · refine ⟨a, mem_rangeInt.mpr (by omega), ?_⟩
          unfold reorderedPos shiftPos
          split_ifs <;> omega

/-- `shiftRow` keeps the row id. -/
theorem shiftRow_id (lid : String) (old np : Int) (x : Todo) :
    (shiftRow lid old np x).id = x.id := by
  unfold shiftRow
  split_ifs <;> rfl

/-- `shiftRow` keeps the parent list. -/
theorem shiftRow_list_id (lid : String) (old np : Int) (x : Todo) :
    (shiftRow lid old np x).list_id = x.list_id := by
  unfold shiftRow
  split_ifs <;> rfl

/-- `movedRow` keeps the row id. -/
theorem movedRow_id (lid tid : String) (old np : Int) (x : Todo) :
    (movedRow lid tid old np x).id = x.id := by
  unfold movedRow
  split_ifs <;> simp [shiftRow_id]

/-- `movedRow` keeps the parent list. -/
theorem movedRow_list_id (lid tid : String) (old np : Int) (x : Todo) :
    (movedRow lid tid old np x).list_id = x.list_id := by
  unfold movedRow
  split_ifs <;> simp [shiftRow_list_id]

/-- A query commutes with a row transformation that does not touch the queried
fields. -/
theorem find?_map_comm (f : α → α) (p : α → Bool) (l : List α)
    (hp : ∀ x, p (f x) = p x) :
    (l.map f).find? p = (l.find? p).map f := by
  induction l with
  | nil => rfl
  | cons x xs ih =>
    by_cases hx : p x = true
    · rw [List.map_cons, List.find?_cons_of_pos _ (by rw [hp]; exact hx),
        List.find?_cons_of_pos _ hx]
      rfl
    · rw [List.map_cons, List.find?_cons_of_neg _ (by rw [hp]; simp [hx]),
        List.find?_cons_of_neg _ (by simp [hx]), ih]

/-- Re-running the locating query after mutating the located row finds the
mutated row, provided the mutation keeps the queried fields. -/
theorem find?_updateFirst (p : α → Bool) (f : α → α) (l : List α) (a : α)
    (hfind : l.find? p = some a) (hf : p (f a) = true) :
    (updateFirst p f l).find? p = some (f a) := by
  induction l with
  | nil => simp at hfind
  | cons x xs ih =>
    by_cases hx : p x = true
    · rw [List.find?_cons_of_pos _ hx] at hfind
      obtain rfl : x = a := by simpa using hfind
      simp only [updateFirst, if_pos hx]
      rw [List.find?_cons_of_pos _ hf]
    · rw [List.find?_cons_of_neg _ (by simp [hx])] at hfind
      simp only [updateFirst, hx, if_false, Bool.false_eq_true]
      rw [List.find?_cons_of_neg _ (by simp [hx])]
      exact ih hfind

/-! ## C1 — single-item todo reorder -/

/-- C1: on a sibling set whose positions are exactly `{0, ..., n-1}` (pairwise
distinct row ids), moving the todo found by `todo_id` to any position
`0 ≤ new < n` succeeds, the sibling set's positions are again exactly
`{0, ..., n-1}`, the moved todo ends at position `new` with all other fields
unchanged, and the relative position order of every pair of other siblings is
preserved. -/
theorem reorder_todo_reindexes (db : Db) (tid uid : String) (newp : Int) (n : Nat)
    (t : Todo)
    (hids : (db.todos.map (fun x => x.id)).Nodup)
    (hfind : db.todos.find? (fun x => x.id == tid) = some t)
    (hacc : (_verify_list_access db t.list_id uid).isSome = true)
    (hperm : (todoPositions db t.list_id).Perm (rangeInt n))
    (h0 : 0 ≤ newp) (hn : newp < (n : Int)) :
    ∃ db', reorder_todo db tid uid newp = (.okStatus, db') ∧
      (todoPositions db' t.list_id).Perm (rangeInt n) ∧
      db'.todos.find? (fun x => x.id == tid) = some { t with position := newp } ∧
      (∀ u ∈ db.todos, ∀ v ∈ db.todos, u.list_id = t.list_id → v.list_id = t.list_id →
        u.id ≠ tid → v.id ≠ tid →
        ∀ u' ∈ db'.todos, u'.id = u.id → ∀ v' ∈ db'.todos, v'.id = v.id →
          (u'.position < v'.position ↔ u.position < v.position)) := by
  have ht_mem : t ∈ db.todos := List.mem_of_find?_eq_some hfind
  have ht_id : t.id = tid := by
    have := List.find?_some hfind
    simpa using this
  have huniq : ∀ x ∈ db.todos, x.id = tid → x = t := fun x hx hxid =>
    List.inj_on_of_nodup_map hids hx ht_mem (by rw [hxid, ht_id])
  obtain ⟨lst, hlst⟩ := Option.isSome_iff_exists.mp hacc
  have ht_sib : t ∈ listTodos db t.list_id := List.mem_filter.mpr ⟨ht_mem, by simp⟩
  have hPnodup : ((listTodos db t.list_id).map (fun x => x.position)).Nodup :=
    hperm.nodup_iff.mpr (nodup_rangeInt n)
  have hposuniq : ∀ x ∈ listTodos db t.list_id, x.position = t.position → x = t :=
    fun x hx hxp => List.inj_on_of_nodup_map hPnodup hx ht_sib hxp
  by_cases hnoop : t.position = newp
  · refine ⟨db, ?_, hperm, ?_, ?_⟩
    · unfold reorder_todo
      simp only [hfind, hlst]
      rw [if_pos hnoop]
    · rw [hfind, ← hnoop]
    · intro u hu v hv _ _ _ _ u' hu' huid' v' hv' hvid'
      obtain rfl : u' = u := List.inj_on_of_nodup_map hids hu' hu huid'
      obtain rfl : v' = v := List.inj_on_of_nodup_map hids hv' hv hvid'
      exact Iff.rfl
  · have hshape : reorder_todo db tid uid newp = (.okStatus,
        { db with
            todos := updateFirst (fun x => x.id == tid) (fun x => { x with position := newp }) (db.todos.map (shiftRow t.list_id t.position newp)) }) := by
      unfold reorder_todo
      simp only [hfind, hlst]
      rw [if_neg hnoop]
    have hkeysF : ((db.todos.map (shiftRow t.list_id t.position newp)).map
        (fun x => x.id)).Nodup := by
      rw [List.map_map]
      have he : db.todos.map ((fun x => x.id) ∘ shiftRow t.list_id t.position newp) =
          db.todos.map (fun x => x.id) :=
        List.map_congr_left (fun x _ => shiftRow_id t.list_id t.position newp x)
      rw [he]
      exact hids
    have hcountF : (db.todos.map (shiftRow t.list_id t.position newp)).countP
        (fun x => x.id == tid) ≤ 1 :=
      countP_le_one_of_nodup_key (fun x => x.id) hkeysF tid _
        (fun x hx => by simpa using hx)
    have hmap : updateFirst (fun x => x.id == tid) (fun x => { x with position := newp })
        (db.todos.map (shiftRow t.list_id t.position newp)) =
        db.todos.map (movedRow t.list_id tid t.position newp) := by
      rw [updateFirst_eq_map _ _ _ hcountF, List.map_map]
      apply List.map_congr_left
      intro x _
      simp only [Function.comp]
      unfold movedRow
      have hidx := shiftRow_id t.list_id t.position newp x
      by_cases hx : (x.id == tid) = true <;> simp [hidx, hx]
    refine ⟨{ db with todos := db.todos.map (movedRow t.list_id tid t.position newp) },
      by rw [hshape, hmap], ?_, ?_, ?_⟩
    · -- positions are again {0, ..., n-1}
      have hsibs : listTodos
          { db with todos := db.todos.map (movedRow t.list_id tid t.position newp) }
            t.list_id =
          (listTodos db t.list_id).map (movedRow t.list_id tid t.position newp) := by
        unfold listTodos
        rw [List.filter_map]
        congr 1
        apply List.filter_congr
        intro x _
        simp only [Function.comp]
        rw [movedRow_list_id]
      have hpos' : todoPositions
          { db with todos := db.todos.map (movedRow t.list_id tid t.position newp) }
            t.list_id =
          (todoPositions db t.list_id).map (reorderedPos t.position newp) := by
        unfold todoPositions
        rw [hsibs, List.map_map, List.map_map]
        apply List.map_congr_left
        intro x hx
        simp only [Function.comp]
        obtain ⟨hxmem, hxl⟩ := List.mem_filter.mp hx
        unfold movedRow
        by_cases hxid : (x.id == tid) = true
        · have hxt : x = t := huniq x hxmem (by simpa using hxid)
          subst hxt
          rw [if_pos hxid]
          unfold reorderedPos
          rw [if_pos rfl]
        · have hxp : x.position ≠ t.position := by
            intro hp
            have hxt := hposuniq x (List.mem_filter.mpr ⟨hxmem, hxl⟩) hp
            rw [hxt] at hxid
            simp [ht_id] at hxid
          rw [if_neg hxid]
          unfold shiftRow
          rw [if_pos hxl]
          unfold reorderedPos
          rw [if_neg hxp]
      rw [hpos']
      have hold_mem : t.position ∈ todoPositions db t.list_id :=
        List.mem_map_of_mem _ ht_sib
      obtain ⟨ho1, ho2⟩ := mem_rangeInt.mp (hperm.mem_iff.mp hold_mem)
      exact (hperm.map _).trans (reorderedPos_range_perm t.position newp n ho1 ho2 h0 hn)
    · -- the moved todo sits at position newp
      have hshift_t : shiftRow t.list_id t.position newp t = t := by
        unfold shiftRow
        rw [if_pos (by simp), shiftPos_self]
      have hfindF : (db.todos.map (shiftRow t.list_id t.position newp)).find?
          (fun x => x.id == tid) = some (shiftRow t.list_id t.position newp t) := by
        rw [find?_map_comm _ _ _ (fun x => by rw [shiftRow_id]), hfind]
        rfl
      have hres := find?_updateFirst (fun x => x.id == tid)
        (fun x : Todo => { x with position := newp }) _ _ hfindF
        (by simp [hshift_t, ht_id])
      rw [← hmap, hres, hshift_t]
    · -- relative order of other siblings is preserved
      intro u hu v hv hul hvl huid hvid u' hu' huid' v' hv' hvid'
      obtain ⟨w, hw, hwu⟩ := List.mem_map.mp hu'
      obtain ⟨w2, hw2, hw2v⟩ := List.mem_map.mp hv'
      have hwid : w.id = u.id := by
        rw [← movedRow_id t.list_id tid t.position newp w, hwu, huid']
      have hw2id : w2.id = v.id := by
        rw [← movedRow_id t.list_id tid t.position newp w2, hw2v, hvid']
      have hw_eq : w = u := List.inj_on_of_nodup_map hids hw hu hwid
      have hw2_eq : w2 = v := List.inj_on_of_nodup_map hids hw2 hv hw2id
      have hu'eq : u' = movedRow t.list_id tid t.position newp u := by
        rw [← hwu, hw_eq]
      have hv'eq : v' = movedRow t.list_id tid t.position newp v := by
        rw [← hw2v, hw2_eq]
      have hub : (u.id == tid) = false := by simpa using huid
      have hvb : (v.id == tid) = false := by simpa using hvid
      have hup : u.position ≠ t.position := by
        intro hp
        exact huid (by rw [hposuniq u (List.mem_filter.mpr ⟨hu, by simp [hul]⟩) hp, ht_id])
      have hvp : v.position ≠ t.position := by
        intro hp
        exact hvid (by rw [hposuniq v (List.mem_filter.mpr ⟨hv, by simp [hvl]⟩) hp, ht_id])
      rw [hu'eq, hv'eq]
      unfold movedRow
      simp only [hub, hvb, Bool.false_eq_true, if_false]
      unfold shiftRow
      rw [if_pos (by simp [hul]), if_pos (by simp [hvl])]
      exact shiftPos_lt_iff t.position newp u.position v.position hup hvp

/-- C1 witness: the spec's concrete scenario — todos A(0), B(1), C(2); moving C
to position 0 succeeds, yields positions `{0, 1, 2}` with C at 0, and keeps A
before B. -/
theorem reorder_todo_reindexes_witness :
    ∃ db', reorder_todo dbReorder "c" "uA" 0 = (.okStatus, db') ∧
      (todoPositions db' "lA").Perm (rangeInt 3) ∧
      db'.todos.find? (fun x => x.id == "c") = some { exTodo "c" "lA" 2 with position := 0 } ∧
      (∀ u ∈ dbReorder.todos, ∀ v ∈ dbReorder.todos, u.list_id = "lA" → v.list_id = "lA" →
        u.id ≠ "c" → v.id ≠ "c" →
        ∀ u' ∈ db'.todos, u'.id = u.id → ∀ v' ∈ db'.todos, v'.id = v.id →
          (u'.position < v'.position ↔ u.position < v.position)) :=
  reorder_todo_reindexes dbReorder "c" "uA" 0 3 (exTodo "c" "lA" 2)
    (by decide) (by decide) (by decide) (by decide) (by decide) (by decide)

end TodoApp
